import Mathlib

/-!
# Verification of the `rawhttp` core of github.com/12end/request

Shallow embedding of the repository's `raw` package:

* `raw/conn.go` — dialer / connection pool (`dialer.dialTimeout`, `clientDial`,
  `TlsHandshake`, `conn.Release`);
* the client file (`src/unnamed/part_000`, package `raw`) — the logical client
  (`Client.do`, `DoRaw`), the response translator (`toHTTPResponse`), the
  request builder (`toRequest`) and the header helpers (`toHeaders`,
  `fromHeaders`, `headerValue`).

Go strings are modelled as Lean `String`; Go `map[string][]string` as an
insertion-ordered association list (`Headers`); Go `int`/`time.Duration` as
`Int`; byte streams (`io.Reader` contents) abstractly as `BodyStream`, where
gzip framing is modelled by a constructor rather than by real bit-level
compression.  Network effects (TCP connect, TLS handshake, request/response
exchange) are modelled as explicit oracle parameters: the code under proof is
exactly the decision logic of the Go source, and the oracle supplies what the
network would have answered.
-/

set_option linter.unusedVariables false

/-- Decidable equality of `Except` results. -/
instance {ε α : Type} [DecidableEq ε] [DecidableEq α] : DecidableEq (Except ε α) := fun x y =>
  match x, y with
  | .error a, .error b => decidable_of_iff (a = b) (by simp)
  | .ok a, .ok b => decidable_of_iff (a = b) (by simp)
  | .error _, .ok _ => isFalse (by simp)
  | .ok _, .error _ => isFalse (by simp)

/-! ## Go `strings` helpers (ASCII fragment used by the client) -/

/-- Go `strings.HasPrefix s pre`. -/
def strStartsWith (s pre : String) : Bool :=
  pre.data.isPrefixOf s.data

/-- ASCII case lowering of one character (the fragment of Go
`strings.ToLower` exercised by URLs in this client). -/
def asciiLower (c : Char) : Char :=
  if 'A' ≤ c ∧ c ≤ 'Z' then Char.ofNat (c.toNat + 32) else c

/-- Go `strings.ToLower` (ASCII fragment). -/
def strLower (s : String) : String :=
  String.mk (s.data.map asciiLower)

/-- Go `strings.Join elems " "`. -/
def joinSpace : List String → String
  | [] => ""
  | [s] => s
  | s :: rest => s ++ " " ++ joinSpace rest

/-! ## Header maps

Go `map[string][]string` (the `http.Header` shape built by `fromHeaders`),
modelled as an association list with unique keys.  Lookup and assignment are
exact, case-sensitive key matches, as in Go. -/

abbrev Headers := List (String × List String)

/-- Map lookup `m[k]` returning `none` for a missing key (Go's missing-key
lookup yields the nil slice). -/
def lookupA {α : Type} : List (String × α) → String → Option α
  | [], _ => none
  | (k, v) :: rest, key => if k = key then some v else lookupA rest key

/-- Map assignment `m[k] = v` (replaces the whole value slice for `k`). -/
def setA {α : Type} : List (String × α) → String → α → List (String × α)
  | [], key, v => [(key, v)]
  | (k, w) :: rest, key, v =>
    if k = key then (key, v) :: rest else (k, w) :: setA rest key v

/-- Go `r[k] = append(r[k], v)` — append one value to the slice stored at `k`
(used by `fromHeaders`). -/
def appendA : Headers → String → String → Headers
  | [], key, v => [(key, [v])]
  | (k, w) :: rest, key, v =>
    if k = key then (k, w ++ [v]) :: rest else (k, w) :: appendA rest key v

/-- Source `fromHeaders`: builds the `map[string][]string` by iterating
the wire header list once, appending each value to the slice keyed by its
header name (duplicates preserved, per-key order preserved).  The Go nil-map /
empty-map distinction is irrelevant to every lookup and is not modelled. -/
def fromHeaders (h : List (String × String)) : Headers :=
  h.foldl (fun acc kv => appendA acc kv.1 kv.2) []

/-- Source `headerValue`: `strings.Join(headers[key], " ")`. -/
def headerValue (headers : Headers) (key : String) : String :=
  joinSpace ((lookupA headers key).getD [])

/-- Source `toHeaders`: flattens the header map back into a `(key,
value)` list, one entry per value.  Go iterates the map in unspecified order;
the model iterates in list (first-insertion) order — no claim depends on the
cross-key order. -/
def toHeadersList (h : Headers) : List (String × String) :=
  (h.map (fun kv => kv.2.map (fun v => (kv.1, v)))).flatten

/-! ## Body streams and the wire model -/

/-- Contents of an `io.Reader` body.  `plain d` is a raw byte stream that is
not gzip-framed; `gzipOf d` is the gzip compression of the byte list `d`
(compression is abstract: `gzip.NewReader` on `gzipOf d` yields `d`, and on a
`plain` stream fails to find gzip framing). -/
inductive BodyStream
  | plain (data : List Nat)
  | gzipOf (data : List Nat)
  deriving DecidableEq

/-- The wire response value produced by the external codec
(`client.Response`): status, protocol version, header list in wire order,
content length, body stream. -/
structure WireResponse where
  versionMajor : Int := 1
  versionMinor : Int := 1
  statusCode : Int
  reason : String := ""
  contentLength : Int := 0
  headers : List (String × String)
  body : BodyStream
  deriving DecidableEq

/-- The `*http.Response` the translator returns to the caller (the fields the
core fills in; the `Status` text and the connection-closing wrapper around the
body are not needed by any claim). -/
structure HTTPResponse where
  protoMajor : Int
  protoMinor : Int
  statusCode : Int
  contentLength : Int
  headers : Headers
  body : BodyStream
  deriving DecidableEq

/-- Errors surfaced by the embedded client paths. -/
inductive DoError
  | parseError
  | connError
  | gzipError
  deriving DecidableEq

/-- Source `toHTTPResponse`: builds the header map with `fromHeaders`,
copies status/version/content-length, and if the joined `Content-Encoding`
header value is exactly `"gzip"` replaces the body stream by a gzip-decoding
reader (`gzip.NewReader` errors when the stream is not gzip-framed); any other
value passes the raw body stream through.  The `readCloser{rbody, conn}`
wrapper only ties closing to the connection and carries no data. -/
def toHTTPResponse (resp : WireResponse) : Except DoError HTTPResponse :=
  let rheaders := fromHeaders resp.headers
  if headerValue rheaders "Content-Encoding" = "gzip" then
    match resp.body with
    | .gzipOf d =>
      .ok { protoMajor := resp.versionMajor, protoMinor := resp.versionMinor,
            statusCode := resp.statusCode, contentLength := resp.contentLength,
            headers := rheaders, body := .plain d }
    | .plain _ => .error .gzipError
  else
    .ok { protoMajor := resp.versionMajor, protoMinor := resp.versionMinor,
          statusCode := resp.statusCode, contentLength := resp.contentLength,
          headers := rheaders, body := resp.body }

/-- Modelled from the spec: `Status.IsRedirect` of the external
`raw/client` wire codec (not under `src/`).  The spec's glossary defines the
redirect class as the HTTP status codes conventionally indicating the
resource moved (the 3xx class). -/
def isRedirectStatus (code : Int) : Bool :=
  300 ≤ code ∧ code ≤ 399

/-! ## Options and the wire request -/

/-- Modelled from the spec (§3, §6): the per-call `Options` record of the
`raw` package (its Go file is not under `src/`; the fields and their
meanings are enumerated in the spec's configuration table).  Defaults are the
Go zero values. -/
structure Options where
  Timeout : Int := 0
  MaxRedirects : Int := 0
  FollowRedirects : Bool := false
  SNI : String := ""
  AutomaticHostHeader : Bool := false
  AutomaticContentLength : Bool := false
  CustomHeaders : List (String × String) := []
  CustomRawBytes : List Nat := []
  ForceReadAllBody : Bool := false
  deriving DecidableEq

/-- The `client.Request` value handed to the wire codec.  Fields default to
Go zero values; `rawBytes ≠ []` means the raw-bytes override is in force. -/
structure WireRequest where
  rawBytes : List Nat := []
  method : String := ""
  path : String := ""
  query : List String := []
  versionMajor : Int := 1
  versionMinor : Int := 1
  headers : List (String × String) := []
  body : Option BodyStream := none
  automaticContentLength : Bool := false
  automaticHost : Bool := false
  deriving DecidableEq

/-- Source `toRequest`: if `options.CustomRawBytes` is non-empty the
whole request is replaced by those bytes; otherwise the header map is
flattened (or wholesale-replaced by `options.CustomHeaders` when non-empty)
and the structured HTTP/1.1 request is built. -/
def toRequest (method path : String) (query : List String) (headers : Headers)
    (body : Option BodyStream) (options : Options) : WireRequest :=
  if options.CustomRawBytes ≠ [] then
    { rawBytes := options.CustomRawBytes }
  else
    { method := method, path := path, query := query,
      headers := if options.CustomHeaders ≠ [] then options.CustomHeaders
                 else toHeadersList headers,
      body := body }

/-! ## URL parsing

`Client.do` calls Go's `net/url.ParseRequestURI` and reads `u.Host`,
`u.Path` and `u.RawQuery`.  The model parses the absolute form
`scheme://host[/path][?query]` (the only form this client can actually dial:
a host-less request URI would dial the empty address); other inputs are
parse failures. -/

/-- The fields of `net/url.URL` read by the client. -/
structure StdURL where
  scheme : String
  host : String
  path : String
  rawQuery : String
  deriving DecidableEq

/-- Split a character list at the first occurrence of any of `stop`,
returning (before, rest-starting-at-stop). -/
def takeUntil (stop : List Char) : List Char → List Char × List Char
  | [] => ([], [])
  | c :: rest =>
    if c ∈ stop then ([], c :: rest)
    else
      let p := takeUntil stop rest
      (c :: p.1, p.2)

/-- Model of `net/url.ParseRequestURI` for absolute URLs
`scheme://host[/path][?query]`. -/
def parseRequestURI (s : String) : Option StdURL :=
  let p := takeUntil [':'] s.data
  match p.2 with
  | ':' :: '/' :: '/' :: rest =>
    if p.1 = [] then none
    else
      let hp := takeUntil ['/', '?'] rest
      let pq := takeUntil ['?'] hp.2
      let query := match pq.2 with
        | '?' :: q => q
        | _ => []
      some ⟨String.mk p.1, String.mk hp.1, String.mk pq.1, String.mk query⟩
  | _ => none

/-! ## Dialer / connection pool (`raw/conn.go`) -/

/-- A `Conn` value as stored in / returned by the pool: the wrapper built in
`dialTimeout` around the transport returned by `clientDial`.  `transport =
none` models a wrapper around a nil `net.Conn` (failed dial). -/
structure ConnV where
  transport : Option Nat
  deriving DecidableEq

/-- Transport-level dial failure. -/
inductive DialError
  | dialFailure
  deriving DecidableEq

/-- The `dialer`'s registry: `conns map[string][]Conn`, address-keyed slices
of idle connections.  The lazily-allocated nil map behaves like the empty
map for every operation performed on it. -/
structure DialerState where
  conns : List (String × List ConnV)
  deriving DecidableEq

/-- Registry lookup `d.conns[addr]`. -/
def lookupConns (st : DialerState) (addr : String) : Option (List ConnV) :=
  lookupA st.conns addr

/-- Registry assignment `d.conns[addr] = v`. -/
def setConns (st : DialerState) (addr : String) (v : List ConnV) : DialerState :=
  ⟨setA st.conns addr v⟩

/-- The cold path of `dialer.dialTimeout`: `c, err := clientDial(...)` followed
by `return &conn{Client: client.NewClient(c), Conn: c, dialer: d}, err` — note
the wrapper is returned in BOTH the success and the failure case.  The network
outcome of `clientDial` is the `dialOutcome` oracle (`.ok id` = a live
transport with identity `id`). -/
def dialCold (st : DialerState) (dialOutcome : Except DialError Nat) :
    (ConnV × Option DialError) × DialerState :=
  match dialOutcome with
  | .ok id => ((⟨some id⟩, none), st)
  | .error e => ((⟨none⟩, some e), st)

/-- Source `dialer.dialTimeout`.  Under the lock: if the registry has a
non-empty idle slice for `addr`, take `conn := c[0]`, overwrite `c[0] =
c[len(c)-1]` (writing through the slice's backing array, so the registry sees
the overwrite — the source never truncates the slice), and return the
connection; otherwise fall through to the cold dial.  `protocol`, `timeout`
and `options` only parametrise `clientDial`, which is abstracted by
`dialOutcome`. -/
def dialTimeout (st : DialerState) (addr : String)
    (dialOutcome : Except DialError Nat) :
    (ConnV × Option DialError) × DialerState :=
  match lookupConns st addr with
  | some c =>
    match c with
    | conn :: rest =>
      let c' := (conn :: rest).set 0 ((conn :: rest).getLast (by simp))
      ((conn, none), setConns st addr c')
    | [] => dialCold st dialOutcome
  | none => dialCold st dialOutcome

/-- Source `conn.Release`: append the connection to the registry slice
keyed by its remote address (the remote address is read off the socket;
here it is the `remoteAddr` argument). -/
def release (st : DialerState) (c : ConnV) (remoteAddr : String) : DialerState :=
  setConns st remoteAddr (((lookupConns st remoteAddr).getD []) ++ [c])

/-! ## `clientDial` (the network operation performed for a cold dial) -/

/-- The `tls.Config` fields set by this client. -/
structure TlsCfg where
  insecureSkipVerify : Bool
  serverName : String
  deriving DecidableEq

/-- Description of the network operation `clientDial` performs.
`tcpThenUpgrade` is the shape the spec describes for `https` (plain TCP
connect followed by the TLS upgrade helper, bounded by the timeout); it is
provably never produced by the source. -/
inductive NetAction
  | tcpDial (addr : String)
  | tcpDialTimeout (addr : String) (timeout : Int)
  | tlsDial (addr : String) (cfg : TlsCfg)
  | tcpThenUpgrade (addr : String) (timeout : Int)
  deriving DecidableEq

/-- Source `clientDial`: for `"http"`, `net.DialTimeout` when
`timeout > 0`, else `net.Dial`; for every other protocol, a direct
`tls.Dial` with `InsecureSkipVerify` and the SNI override as `ServerName`
when set — the `timeout` argument is not consulted on that path. -/
def clientDial (protocol addr : String) (timeout : Int) (options : Options) :
    NetAction :=
  if protocol = "http" then
    if timeout > 0 then .tcpDialTimeout addr timeout
    else .tcpDial addr
  else
    .tlsDial addr
      { insecureSkipVerify := true,
        serverName := if options.SNI ≠ "" then options.SNI else "" }

/-! ## `TlsHandshake` (the exported TLS upgrade helper) -/

/-- The prefix `addr[:strings.LastIndex(addr, ":")]`, or the whole address
when it has no colon — the hostname `TlsHandshake` derives for SNI. -/
def beforeLastColon (s : String) : String :=
  match s.data.reverse.dropWhile (· ≠ ':') with
  | [] => s
  | _ :: rest => String.mk rest.reverse

/-- Why `tlsConn.HandshakeContext(ctx)` failed: a handshake error proper, or
expiry of the deadline that `TlsHandshake` installs when `timeout > 0`. -/
inductive HsError
  | handshakeFailed
  | deadlineExceeded
  deriving DecidableEq

/-- The encrypted transport `tls.Client` builds: it wraps the raw transport
and records the config this helper passes (`InsecureSkipVerify: true`,
`ServerName` = host part of `addr`). -/
structure SecureConn where
  underlying : Nat
  serverName : String
  insecureSkipVerify : Bool
  deriving DecidableEq

/-- Result of `TlsHandshake`: whether the raw transport was closed before
returning, and the returned value. -/
structure TlsResult where
  rawClosed : Bool
  result : Except HsError SecureConn
  deriving DecidableEq

/-- Source `TlsHandshake`: derive the hostname (text before the last
colon), install a cancellable deadline when `timeout > 0`, run the handshake
(outcome supplied by the `outcome` oracle; `.error .deadlineExceeded` is only
reachable when `timeout > 0`); on any handshake error `conn.Close()` is called
and the error returned; on success the encrypted transport is returned and
the raw transport stays open. -/
def TlsHandshake (connId : Nat) (addr : String) (timeout : Int)
    (outcome : Except HsError Unit) : TlsResult :=
  match outcome with
  | .error e => { rawClosed := true, result := .error e }
  | .ok _ =>
    { rawClosed := false,
      result := .ok { underlying := connId,
                      serverName := beforeLastColon addr,
                      insecureSkipVerify := true } }

/-! ## The logical client (`Client.do` and its redirect loop)

`Client.do` recurses with `redirectstatus.Current` incremented per hop under
the guard `Current <= MaxRedirects`.  The embedding threads the equivalent
quantity `remaining = (MaxRedirects + 1 - Current).toNat` instead: the guard
`Current <= MaxRedirects` holds exactly when `remaining > 0`, and
incrementing `Current` decrements `remaining` by one — this makes the
recursion structural.  `clientDo` performs the conversion at entry.

The dial + write + read round trip (steps 5–8: `getConn`, `conn.SetDeadline`,
`conn.WriteRequest`, `conn.ReadResponse`) is abstracted by the `server`
oracle: `server url = none` models a dial/write/read failure for the hop at
`url` (the Go code returns that error unchanged before any translation), and
`server url = some resp` models a completed exchange yielding the wire
response `resp`.  Draining and closing an in-model body stream cannot fail,
so the drain/close error path of step 10 never fires in the model.

Because Go maps are references, the headers map mutated by
`headers["Host"] = []string{host}` is the caller's own map; the embedding
threads it as explicit state, and `DoOut.finalHeaders` is the state of that
map when the call returns — i.e. what the caller's map holds afterwards. -/

/-- Source `RedirectStatus`. -/
structure RedirectStatus where
  FollowRedirects : Bool
  MaxRedirects : Int
  Current : Int
  deriving DecidableEq

/-- Ghost record of one completed hop of the redirect loop: the URL the hop
targeted, the scheme/host it dialed, the `method`/`body` arguments it was
issued with, the headers map as sent (after the automatic-Host write), the
wire request built for it, and the translated response it obtained. -/
structure Hop where
  url : String
  protocol : String
  host : String
  method : String
  body : Option BodyStream
  headersSent : Headers
  req : WireRequest
  response : HTTPResponse
  deriving DecidableEq

/-- Result of one `Client.do` call: the returned value, the final state of
the (caller-shared) headers map, and the ghost trace of completed hops. -/
structure DoOut where
  result : Except DoError HTTPResponse
  finalHeaders : Headers
  trace : List Hop
  deriving DecidableEq

/-- Scheme determination at the top of `Client.do`: case-insensitive
`https://` prefix test on the URL. -/
def protocolOf (url : String) : String :=
  if strStartsWith (strLower url) "https://" then "https" else "http"

/-- The later case-sensitive re-check in `Client.do`
(`if strings.HasPrefix(url, "https://") { protocol = "https" }`); it never
changes the value computed by `protocolOf` but is kept for fidelity. -/
def protocolFinal (url : String) : String :=
  if strStartsWith url "https://" then "https" else protocolOf url

/-- Redirect target resolution of `Client.do` step 10: a `Location` value
starting with `/` is prefixed by `scheme://host`
(`fmt.Sprintf("%s://%s%s", protocol, host, loc)`); any other value is used
unmodified. -/
def resolveLocation (protocol host loc : String) : String :=
  if strStartsWith loc "/" then protocol ++ "://" ++ host ++ loc else loc

/-- The effective path of `Client.do`: `u.Path` (or `/` when empty), with
`?RawQuery` appended when present, overridden wholesale by a non-empty
`uripath`. -/
def effPath (u : StdURL) (uripath : String) : String :=
  let path := if u.path = "" then "/" else u.path
  let path := if u.rawQuery ≠ "" then path ++ "?" ++ u.rawQuery else path
  if uripath ≠ "" then uripath else path

/-- The automatic-Host step of `Client.do`: when `AutomaticHostHeader` is
set, `headers["Host"] = []string{host}` — an in-place write into the
caller-shared map, replacing any existing `Host` entry with the single
dialed host; otherwise the map is untouched. -/
def applyHostHeader (options : Options) (headers : Headers) (host : String) :
    Headers :=
  if options.AutomaticHostHeader then setA headers "Host" [host] else headers

/-- The wire request `Client.do` hands to the codec: `toRequest` followed by
the two assignments `req.AutomaticContentLength = ...` and
`req.AutomaticHost = ...`. -/
def buildReq (method path : String) (headers : Headers)
    (body : Option BodyStream) (options : Options) : WireRequest :=
  { toRequest method path [] headers body options with
    automaticContentLength := options.AutomaticContentLength,
    automaticHost := options.AutomaticHostHeader }

/-- The recursive body of `Client.do` (see the section comment for the
`remaining` encoding of the redirect bound and the `server` oracle).  Go's
per-entry nil-map check on `headers` is performed once in `clientDo`: the
map is non-nil from then on. -/
def doAux (server : String → Option WireResponse) (method uripath : String)
    (body : Option BodyStream) (options : Options) (follow : Bool) :
    Nat → String → Headers → DoOut := fun remaining url headers =>
  match parseRequestURI url with
  | none => ⟨.error .parseError, headers, []⟩
  | some u =>
    let host := u.host
    let headers := applyHostHeader options headers host
    let path := effPath u uripath
    let protocol := protocolFinal url
    match server url with
    | none => ⟨.error .connError, headers, []⟩
    | some resp =>
      let req := buildReq method path headers body options
      match toHTTPResponse resp with
      | .error e => ⟨.error e, headers, []⟩
      | .ok r =>
        let hop : Hop := ⟨url, protocol, host, method, body, headers, req, r⟩
        if isRedirectStatus resp.statusCode && follow then
          match remaining with
          | Nat.succ rem =>
            let loc := headerValue r.headers "Location"
            let nextUrl := resolveLocation protocol host loc
            let rest := doAux server method uripath body options follow rem
                nextUrl headers
            ⟨rest.result, rest.finalHeaders, hop :: rest.trace⟩
          | 0 => ⟨.ok r, headers, [hop]⟩
        else ⟨.ok r, headers, [hop]⟩

/-- Source `Client.do` (named `clientDo`: `do` is reserved in Lean).
Converts the `RedirectStatus` counters to the structural `remaining` bound
and performs the nil-map check on the caller's headers map. -/
def clientDo (server : String → Option WireResponse)
    (method url uripath : String) (headers : Option Headers)
    (body : Option BodyStream) (rs : RedirectStatus) (options : Options) :
    DoOut :=
  doAux server method uripath body options rs.FollowRedirects
    ((rs.MaxRedirects + 1 - rs.Current).toNat) url (headers.getD [])

/-- Source `Client.DoRaw`: runs the loop with `FollowRedirects` forced
on and the bound taken from the client's options. -/
def DoRaw (server : String → Option WireResponse) (options : Options)
    (method url uripath : String) (headers : Option Headers)
    (body : Option BodyStream) : DoOut :=
  clientDo server method url uripath headers body
    ⟨true, options.MaxRedirects, 0⟩ options

/-! ## Fake servers for concrete runs -/

/-- Fake server: a redirect chain `/a` → `/b` → `/c` (the response at `/b`
is itself a redirect pointing at `/c`; no other URL answers). -/
def server1 : String → Option WireResponse := fun url =>
  if url = "http://h/a" then
    some { statusCode := 302, headers := [("Location", "/b")], body := .plain [] }
  else if url = "http://h/b" then
    some { statusCode := 302, headers := [("Location", "/c")], body := .plain [] }
  else none

/-- Fake server: three chained redirects `/a` → `/b` → `/c` → `/d`, then a
`200` at `/d`. -/
def server3 : String → Option WireResponse := fun url =>
  if url = "http://h/a" then
    some { statusCode := 302, headers := [("Location", "/b")], body := .plain [] }
  else if url = "http://h/b" then
    some { statusCode := 302, headers := [("Location", "/c")], body := .plain [] }
  else if url = "http://h/c" then
    some { statusCode := 302, headers := [("Location", "/d")], body := .plain [] }
  else if url = "http://h/d" then
    some { statusCode := 200, headers := [("X-Done", "1")], body := .plain [1, 2] }
  else none

/-- Relation between consecutive hops of one call: the later hop's URL is the
resolved `Location` of the earlier hop's response, and its headers map is the
earlier hop's map (the same caller-shared map) after the automatic-Host
write for the new host. -/
def hopRel (options : Options) (h1 h2 : Hop) : Prop :=
  h2.url = resolveLocation h1.protocol h1.host
      (headerValue h1.response.headers "Location") ∧
  h2.headersSent = applyHostHeader options h1.headersSent h2.host

/-! ## Structural lemmas about the redirect loop -/

/-- When a call contributes at least one hop to the trace, the first hop
records exactly the call's own URL, scheme, parsed host, the headers map
after the automatic-Host write, the built wire request, the call's
method/body, and the translated response. -/
theorem doAux_trace_head {server : String → Option WireResponse}
    {method uripath : String} {body : Option BodyStream} {options : Options}
    {follow : Bool} {rem : Nat} {url : String} {hs : Headers} {hop : Hop}
    {rest : List Hop}
    (h : (doAux server method uripath body options follow rem url hs).trace
          = hop :: rest) :
    ∃ u resp r, parseRequestURI url = some u ∧ server url = some resp ∧
      toHTTPResponse resp = .ok r ∧
      hop = ⟨url, protocolFinal url, u.host, method, body,
             applyHostHeader options hs u.host,
             buildReq method (effPath u uripath)
               (applyHostHeader options hs u.host) body options,
             r⟩ := by
  unfold doAux at h
  split at h
  · simp at h
  · rename_i u hu
    split at h
    · simp at h
    · rename_i resp hresp
      split at h
      · simp at h
      · rename_i r hr
        refine ⟨u, resp, r, hu, hresp, hr, ?_⟩
        split at h
        · split at h
          · dsimp only at h
            rw [List.cons.injEq] at h
            exact h.1.symm
          · dsimp only at h
            rw [List.cons.injEq] at h
            exact h.1.symm
        · dsimp only at h
          rw [List.cons.injEq] at h
          exact h.1.symm

/-- Consecutive hops of any trace of the redirect loop are related by
`hopRel`. -/
theorem doAux_trace_chain (server : String → Option WireResponse)
    (method uripath : String) (body : Option BodyStream) (options : Options)
    (follow : Bool) :
    ∀ (rem : Nat) (url : String) (hs : Headers),
      List.Chain' (hopRel options)
        (doAux server method uripath body options follow rem url hs).trace := by
  intro rem
  induction rem with
  | zero =>
    intro url hs
    unfold doAux
    split
    · simp
    · split
      · simp
      · split
        · simp
        · split
          · dsimp only
            simp
          · dsimp only
            simp
  | succ m ih =>
    intro url hs
    unfold doAux
    split
    · simp
    · rename_i u hu
      split
      · simp
      · rename_i resp hresp
        split
        · simp
        · rename_i r hr
          split
          · rename_i hguard
            split
            · rename_i m2 hm
              have hmm : m2 = m := by omega
              subst hmm
              dsimp only
              rw [List.chain'_cons']
              refine ⟨?_, ih _ _⟩
              intro b hb
              cases htr : (doAux server method uripath body options follow m2
                  (resolveLocation (protocolFinal url) u.host
                    (headerValue r.headers "Location"))
                  (applyHostHeader options hs u.host)).trace with
              | nil => rw [htr] at hb; simp at hb
              | cons hop2 t2 =>
                rw [htr] at hb
                simp only [List.head?_cons, Option.mem_def, Option.some.injEq] at hb
                subst hb
                obtain ⟨u2, resp2, r2, hu2, hresp2, hr2, hhop2⟩ :=
                  doAux_trace_head htr
                subst hhop2
                exact ⟨rfl, rfl⟩
            · omega
          · dsimp only
            simp

/-- Every hop of a trace was issued with the call's own method and body. -/
theorem doAux_trace_method_body (server : String → Option WireResponse)
    (method uripath : String) (body : Option BodyStream) (options : Options)
    (follow : Bool) :
    ∀ (rem : Nat) (url : String) (hs : Headers) (hop : Hop),
      hop ∈ (doAux server method uripath body options follow rem url hs).trace →
      hop.method = method ∧ hop.body = body := by
  intro rem
  induction rem with
  | zero =>
    intro url hs hop hmem
    unfold doAux at hmem
    split at hmem
    · simp at hmem
    · split at hmem
      · simp at hmem
      · split at hmem
        · simp at hmem
        · split at hmem
          · dsimp only at hmem
            simp at hmem
            subst hmem
            exact ⟨rfl, rfl⟩
          · dsimp only at hmem
            simp at hmem
            subst hmem
            exact ⟨rfl, rfl⟩
  | succ m ih =>
    intro url hs hop hmem
    unfold doAux at hmem
    split at hmem
    · simp at hmem
    · split at hmem
      · simp at hmem
      · split at hmem
        · simp at hmem
        · split at hmem
          · split at hmem
            · rename_i m2 hm
              have hmm : m2 = m := by omega
              subst hmm
              dsimp only at hmem
              rw [List.mem_cons] at hmem
              cases hmem with
              | inl hh => subst hh; exact ⟨rfl, rfl⟩
              | inr hh => exact ih _ _ _ hh
            · omega
          · dsimp only at hmem
            simp at hmem
            subst hmem
            exact ⟨rfl, rfl⟩

/-- Looking up a key right after assigning it yields exactly the assigned
value (the Go map-assignment semantics of `setA`). -/
theorem lookupA_setA {α : Type} (h : List (String × α)) (k : String) (v : α) :
    lookupA (setA h k v) k = some v := by
  induction h with
  | nil => simp [setA, lookupA]
  | cons kv rest ih =>
    by_cases hk : kv.1 = k
    · simp [setA, hk, lookupA]
    · simp only [setA]
      rw [if_neg hk]
      simp only [lookupA]
      rw [if_neg hk]
      exact ih

/-- Assigning one key leaves every other key's value unchanged. -/
theorem lookupA_setA_ne {α : Type} (h : List (String × α)) (k k' : String)
    (v : α) (hne : k ≠ k') :
    lookupA (setA h k v) k' = lookupA h k' := by
  induction h with
  | nil => simp [setA, lookupA, hne]
  | cons kv rest ih =>
    by_cases hk : kv.1 = k
    · simp only [setA]
      rw [if_pos hk]
      simp only [lookupA]
      rw [if_neg hne, if_neg (hk ▸ hne)]
    · simp only [setA]
      rw [if_neg hk]
      simp only [lookupA]
      by_cases hk' : kv.1 = k'
      · rw [if_pos hk', if_pos hk']
      · rw [if_neg hk', if_neg hk']
        exact ih

/-- After a call whose headers map already holds a single-valued `Host`
entry, the final map still holds a single-valued `Host` entry — or the call
failed before touching the map at all.  (Requires `AutomaticHostHeader`.) -/
theorem doAux_final_host_aux (server : String → Option WireResponse)
    (method uripath : String) (body : Option BodyStream) (options : Options)
    (follow : Bool) (hAHH : options.AutomaticHostHeader = true) :
    ∀ (rem : Nat) (url : String) (hs : Headers),
      (∃ v, lookupA
          (doAux server method uripath body options follow rem url hs).finalHeaders
          "Host" = some [v]) ∨
      (doAux server method uripath body options follow rem url hs).finalHeaders
        = hs := by
  have hset : ∀ (hs : Headers) (host : String),
      applyHostHeader options hs host = setA hs "Host" [host] := by
    intro hs host
    simp [applyHostHeader, hAHH]
  intro rem
  induction rem with
  | zero =>
    intro url hs
    unfold doAux
    split
    · right
      rfl
    · rename_i u hu
      split
      · left
        exact ⟨u.host, by (try dsimp only); rw [hset, lookupA_setA]⟩
      · split
        · left
          exact ⟨u.host, by (try dsimp only); rw [hset, lookupA_setA]⟩
        · split
          · dsimp only
            left
            exact ⟨u.host, by (try dsimp only); rw [hset, lookupA_setA]⟩
          · dsimp only
            left
            exact ⟨u.host, by (try dsimp only); rw [hset, lookupA_setA]⟩
  | succ m ih =>
    intro url hs
    unfold doAux
    split
    · right
      rfl
    · rename_i u hu
      split
      · left
        exact ⟨u.host, by (try dsimp only); rw [hset, lookupA_setA]⟩
      · rename_i resp hresp
        split
        · left
          exact ⟨u.host, by (try dsimp only); rw [hset, lookupA_setA]⟩
        · rename_i r hr
          split
          · split
            · rename_i m2 hm
              have hmm : m2 = m := by omega
              subst hmm
              dsimp only
              cases ih (resolveLocation (protocolFinal url) u.host
                  (headerValue r.headers "Location"))
                  (applyHostHeader options hs u.host) with
              | inl hl => exact Or.inl hl
              | inr hr2 =>
                left
                rw [hr2, hset, lookupA_setA]
                exact ⟨u.host, rfl⟩
            · left
              exact ⟨u.host, by (try dsimp only); rw [hset, lookupA_setA]⟩
          · dsimp only
            left
            exact ⟨u.host, by (try dsimp only); rw [hset, lookupA_setA]⟩

/-- With `AutomaticHostHeader` set and a parsable URL, the caller's headers
map ends up holding a single-valued `Host` entry after the call returns. -/
theorem doAux_final_host (server : String → Option WireResponse)
    (method uripath : String) (body : Option BodyStream) (options : Options)
    (follow : Bool) (hAHH : options.AutomaticHostHeader = true)
    (rem : Nat) (url : String) (hs : Headers) (u : StdURL)
    (hu : parseRequestURI url = some u) :
    ∃ v, lookupA
        (doAux server method uripath body options follow rem url hs).finalHeaders
        "Host" = some [v] := by
  have hset : ∀ (hs : Headers) (host : String),
      applyHostHeader options hs host = setA hs "Host" [host] := by
    intro hs host
    simp [applyHostHeader, hAHH]
  unfold doAux
  split
  · rename_i heq
    rw [hu] at heq
    cases heq
  · rename_i u' hu'
    split
    · exact ⟨u'.host, by (try dsimp only); rw [hset, lookupA_setA]⟩
    · rename_i resp hresp
      split
      · exact ⟨u'.host, by (try dsimp only); rw [hset, lookupA_setA]⟩
      · rename_i r hr
        split
        · split
          · rename_i m2 budget
            dsimp only
            cases doAux_final_host_aux server method uripath body options follow
                hAHH budget (resolveLocation (protocolFinal url) u'.host
                  (headerValue r.headers "Location"))
                (applyHostHeader options hs u'.host) with
            | inl hl => exact hl
            | inr hr2 =>
              rw [hr2, hset, lookupA_setA]
              exact ⟨u'.host, rfl⟩
          · exact ⟨u'.host, by (try dsimp only); rw [hset, lookupA_setA]⟩
        · dsimp only
          exact ⟨u'.host, by (try dsimp only); rw [hset, lookupA_setA]⟩

/-- A call entered with `remaining` budget contributes at most
`remaining + 1` hops to the trace. -/
theorem doAux_trace_length (server : String → Option WireResponse)
    (method uripath : String) (body : Option BodyStream) (options : Options)
    (follow : Bool) :
    ∀ (rem : Nat) (url : String) (hs : Headers),
      (doAux server method uripath body options follow rem url hs).trace.length
        ≤ rem + 1 := by
  intro rem
  induction rem with
  | zero =>
    intro url hs
    unfold doAux
    split
    · simp
    · split
      · simp
      · split
        · simp
        · split
          · dsimp only
            simp
          · dsimp only
            simp
  | succ m ih =>
    intro url hs
    unfold doAux
    split
    · simp
    · split
      · simp
      · split
        · simp
        · split
          · split
            · rename_i m2 hm
              have hmm : m2 = m := by omega
              subst hmm
              dsimp only
              rw [List.length_cons]
              exact Nat.succ_le_succ (ih _ _)
            · omega
          · dsimp only
            simp

/-! ## Claims -/

/-- C1: The pool-exclusivity invariant fails on the code.  Reachable
run: a cold dial to `a:80` creates connection `7`; `Release` parks it; the
next acquire returns connection `7` but — because `dialTimeout` overwrites
`c[0] = c[len(c)-1]` without ever truncating the slice — the same connection
is still in the address's idle slice, and a further acquire hands the very
same connection out a second time.  (The overwrite idiom is the first half
of a swap-remove whose truncation step is missing, and the states violate
the spec's stated invariant, so this is a code bug rather than intended
behavior.)  The third acquire is given a failing dial oracle to show that
no dial is even consulted: the duplicate comes from the pool. -/
theorem pool_acquire_leaves_connection_idle :
    (dialTimeout ⟨[]⟩ "a:80" (.ok 7)).1 = (⟨some 7⟩, none) ∧
    (release (dialTimeout ⟨[]⟩ "a:80" (.ok 7)).2 ⟨some 7⟩ "a:80").conns
      = [("a:80", [⟨some 7⟩])] ∧
    (dialTimeout (release (dialTimeout ⟨[]⟩ "a:80" (.ok 7)).2 ⟨some 7⟩ "a:80")
        "a:80" (.error .dialFailure)).1 = (⟨some 7⟩, none) ∧
    lookupConns (dialTimeout (release (dialTimeout ⟨[]⟩ "a:80" (.ok 7)).2
        ⟨some 7⟩ "a:80") "a:80" (.error .dialFailure)).2 "a:80"
      = some [⟨some 7⟩] ∧
    (dialTimeout (dialTimeout (release (dialTimeout ⟨[]⟩ "a:80" (.ok 7)).2
        ⟨some 7⟩ "a:80") "a:80" (.error .dialFailure)).2
        "a:80" (.error .dialFailure)).1 = (⟨some 7⟩, none) := by
  decide

/-- C3 counterexample: For `https` the source performs a single direct
`tls.Dial` — it does not open plain TCP and invoke the TLS upgrade helper —
and a strictly positive timeout produces exactly the same network action as
no timeout at all. -/
theorem https_dial_is_direct_tls_ignoring_timeout :
    clientDial "https" "example.com:443" 5 {} =
      NetAction.tlsDial "example.com:443" ⟨true, ""⟩ ∧
    clientDial "https" "example.com:443" 5 {} =
      clientDial "https" "example.com:443" 0 {} ∧
    clientDial "https" "example.com:443" 5 {} ≠
      NetAction.tcpThenUpgrade "example.com:443" 5 := by
  decide

/-- C3 amended: Acquires for protocol `https` that reach the network
dial a direct combined TLS connection (`tls.Dial`, certificate checks
disabled, SNI override as server name when set); the TLS upgrade helper is
not invoked on this path and the supplied timeout is ignored for `https` —
only the plaintext `http` dial is bounded by a positive timeout. -/
theorem clientDial_https_behavior (addr : String) (t : Int) (o : Options) :
    clientDial "https" addr t o =
      NetAction.tlsDial addr ⟨true, if o.SNI ≠ "" then o.SNI else ""⟩ ∧
    clientDial "https" addr t o = clientDial "https" addr 0 o ∧
    (∀ a u, clientDial "https" addr t o ≠ NetAction.tcpThenUpgrade a u) ∧
    (0 < t → clientDial "http" addr t o = NetAction.tcpDialTimeout addr t) ∧
    (t ≤ 0 → clientDial "http" addr t o = NetAction.tcpDial addr) := by
  refine ⟨?_, ?_, ?_, ?_, ?_⟩
  · simp [clientDial]
  · simp [clientDial]
  · intro a u
    simp [clientDial]
  · intro ht
    unfold clientDial
    rw [if_pos rfl, if_pos ht]
  · intro ht
    unfold clientDial
    rw [if_pos rfl, if_neg (show ¬ t > 0 by omega)]

/-- Witness for C3 (amended) at a concrete input. -/
theorem clientDial_https_behavior_witness :
    (0 : Int) < 5 ∧
    clientDial "http" "example.com:80" 5 {} =
      NetAction.tcpDialTimeout "example.com:80" 5 :=
  ⟨by decide,
    (clientDial_https_behavior "example.com:80" 5 {}).2.2.2.1 (by decide)⟩

/-- C4 counterexample: When the cold dial fails, `dialTimeout` returns
the error TOGETHER with a (non-nil) `Conn` wrapper around the failed (nil)
transport — not "either a Connection or an error, never both". -/
theorem dial_failure_returns_connection_and_error :
    dialTimeout ⟨[]⟩ "b:80" (.error .dialFailure)
      = ((⟨none⟩, some .dialFailure), ⟨[]⟩) := by
  decide

/-- C4 amended: On an acquire that finds no idle connection: if the
transport dial fails, the error is surfaced but a non-nil `Conn` wrapper
around the nil transport is returned alongside it (callers must test the
error value); if the dial succeeds, the wrapper around the live transport is
returned with no error.  In both cases the registry is left unchanged. -/
theorem dialTimeout_cold_behavior (st : DialerState) (addr : String)
    (outcome : Except DialError Nat)
    (hidle : lookupConns st addr = none ∨ lookupConns st addr = some []) :
    (∀ e, outcome = .error e →
      dialTimeout st addr outcome = ((⟨none⟩, some e), st)) ∧
    (∀ i, outcome = .ok i →
      dialTimeout st addr outcome = ((⟨some i⟩, none), st)) := by
  cases hidle with
  | inl h =>
    constructor
    · intro e he
      subst he
      unfold dialTimeout
      rw [h]
      rfl
    · intro i hi
      subst hi
      unfold dialTimeout
      rw [h]
      rfl
  | inr h =>
    constructor
    · intro e he
      subst he
      unfold dialTimeout
      rw [h]
      rfl
    · intro i hi
      subst hi
      unfold dialTimeout
      rw [h]
      rfl

/-- Witness for C4 (amended) at a concrete input. -/
theorem dialTimeout_cold_behavior_witness :
    (lookupConns ⟨[("x:1", [⟨some 3⟩])]⟩ "b:80" = none ∨
      lookupConns ⟨[("x:1", [⟨some 3⟩])]⟩ "b:80" = some []) ∧
    dialTimeout ⟨[("x:1", [⟨some 3⟩])]⟩ "b:80" (.error .dialFailure)
      = ((⟨none⟩, some .dialFailure), ⟨[("x:1", [⟨some 3⟩])]⟩) :=
  ⟨Or.inl (by decide),
    (dialTimeout_cold_behavior ⟨[("x:1", [⟨some 3⟩])]⟩ "b:80" _
      (Or.inl (by decide))).1 .dialFailure rfl⟩

/-- C5: `TlsHandshake` closes the raw transport before returning the
error whenever the handshake fails — including expiry of the bounded
deadline installed for `timeout > 0` — and on success returns the encrypted
transport (server name = host part of the address, certificate checks
disabled) leaving the raw transport open. -/
theorem TlsHandshake_cleanup (cid : Nat) (addr : String) (t : Int)
    (outcome : Except HsError Unit) :
    (∀ e, outcome = .error e →
      TlsHandshake cid addr t outcome = ⟨true, .error e⟩) ∧
    (outcome = .ok () →
      TlsHandshake cid addr t outcome =
        ⟨false, .ok ⟨cid, beforeLastColon addr, true⟩⟩) := by
  constructor
  · intro e he
    subst he
    rfl
  · intro h
    subst h
    rfl

/-- Witness for C5 at concrete inputs (a deadline expiry with
`timeout = 5`). -/
theorem TlsHandshake_cleanup_witness :
    ((.error .deadlineExceeded : Except HsError Unit) = .error .deadlineExceeded) ∧
    TlsHandshake 3 "example.com:443" 5 (.error .deadlineExceeded)
      = ⟨true, .error .deadlineExceeded⟩ :=
  ⟨rfl, (TlsHandshake_cleanup 3 "example.com:443" 5 _).1 .deadlineExceeded rfl⟩

/-- C2 counterexample: With `MaxRedirects = 0` the first redirect IS
followed (the guard is `Current <= MaxRedirects` with `Current` starting at
`0`): against `server1` the trace has two hops and the value returned to the
caller is the SECOND URL's redirect response, not the first redirect-class
response unfollowed. -/
theorem redirect_bound_zero_follows_one_hop :
    (DoRaw server1 { MaxRedirects := 0 } "GET" "http://h/a" "" none
      none).trace.length = 2 ∧
    (DoRaw server1 { MaxRedirects := 0 } "GET" "http://h/a" "" none
      none).result =
      .ok { protoMajor := 1, protoMinor := 1, statusCode := 302,
            contentLength := 0, headers := [("Location", ["/c"])],
            body := .plain [] } := by
  decide

/-- C2 amended: The redirect bound is off by one against the claim:
a call follows at most `MaxRedirects - Current + 1` redirects (trace length
at most `(MaxRedirects + 1 - Current).toNat + 1`); with `MaxRedirects = 0`
one hop is followed, and with `MaxRedirects = 2` against three chained
redirect responses all three redirects are followed and the fourth
response (the final `200`) is returned. -/
theorem redirect_bound_amended :
    (∀ (server : String → Option WireResponse) (method url uripath : String)
        (headers : Option Headers) (body : Option BodyStream)
        (rs : RedirectStatus) (options : Options),
      (clientDo server method url uripath headers body rs options).trace.length
        ≤ (rs.MaxRedirects + 1 - rs.Current).toNat + 1) ∧
    (DoRaw server3 { MaxRedirects := 2 } "GET" "http://h/a" "" none
      none).trace.length = 4 ∧
    (DoRaw server3 { MaxRedirects := 2 } "GET" "http://h/a" "" none
      none).result =
      .ok { protoMajor := 1, protoMinor := 1, statusCode := 200,
            contentLength := 0, headers := [("X-Done", ["1"])],
            body := .plain [1, 2] } := by
  refine ⟨?_, by decide, by decide⟩
  intro server method url uripath headers body rs options
  exact doAux_trace_length server method uripath body options
    rs.FollowRedirects ((rs.MaxRedirects + 1 - rs.Current).toNat) url
    (headers.getD [])

/-- C6: For every followed redirect (consecutive hops in a call's
trace), the next hop's URL is exactly the previous hop's scheme, `://`, its
host and the `Location` value concatenated when that value starts with `/`,
and the `Location` value unmodified otherwise. -/
theorem redirect_location_resolution (server : String → Option WireResponse)
    (method url uripath : String) (headers : Option Headers)
    (body : Option BodyStream) (rs : RedirectStatus) (options : Options) :
    List.Chain'
      (fun h1 h2 => h2.url = resolveLocation h1.protocol h1.host
        (headerValue h1.response.headers "Location"))
      (clientDo server method url uripath headers body rs options).trace :=
  List.Chain'.imp (fun a b hab => hab.1)
    (doAux_trace_chain server method uripath body options rs.FollowRedirects
      ((rs.MaxRedirects + 1 - rs.Current).toNat) url (headers.getD []))

/-- C7: When the redirect condition fails at a hop that obtained a
translated response — non-redirect status, `FollowRedirects` off, or the
bound exhausted (`MaxRedirects < Current`) — the call returns that last
response as a normal successful result, not an error. -/
theorem redirect_stop_returns_response (server : String → Option WireResponse)
    (method url uripath : String) (headers : Option Headers)
    (body : Option BodyStream) (rs : RedirectStatus) (options : Options)
    (u : StdURL) (resp : WireResponse) (r : HTTPResponse)
    (hu : parseRequestURI url = some u) (hresp : server url = some resp)
    (hr : toHTTPResponse resp = .ok r)
    (hstop : isRedirectStatus resp.statusCode = false ∨
      rs.FollowRedirects = false ∨ rs.MaxRedirects < rs.Current) :
    (clientDo server method url uripath headers body rs options).result
      = .ok r := by
  unfold clientDo doAux
  simp only [hu, hresp, hr]
  rcases hstop with h | h | h
  · rw [if_neg (by simp [h])]
  · rw [if_neg (by simp [h])]
  · have h0 : (rs.MaxRedirects + 1 - rs.Current).toNat = 0 := by omega
    rw [h0]
    split
    · rfl
    · rfl

/-- Witness for C7 at a concrete input: the non-redirect `200` at
`http://h/d` of `server3` is returned as a success. -/
theorem redirect_stop_returns_response_witness :
    parseRequestURI "http://h/d" = some ⟨"http", "h", "/d", ""⟩ ∧
    server3 "http://h/d" = some { statusCode := 200, headers := [("X-Done", "1")], body := .plain [1, 2] } ∧
    toHTTPResponse { statusCode := 200, headers := [("X-Done", "1")], body := .plain [1, 2] } =
      .ok { protoMajor := 1, protoMinor := 1, statusCode := 200,
            contentLength := 0, headers := [("X-Done", ["1"])],
            body := .plain [1, 2] } ∧
    (clientDo server3 "GET" "http://h/d" "" none none ⟨true, 5, 0⟩ {}).result
      = .ok { protoMajor := 1, protoMinor := 1, statusCode := 200,
              contentLength := 0, headers := [("X-Done", ["1"])],
              body := .plain [1, 2] } :=
  ⟨by decide, by decide, by decide,
    redirect_stop_returns_response server3 "GET" "http://h/d" "" none none
      ⟨true, 5, 0⟩ {} ⟨"http", "h", "/d", ""⟩
      { statusCode := 200, headers := [("X-Done", "1")], body := .plain [1, 2] }
      { protoMajor := 1, protoMinor := 1, statusCode := 200, contentLength := 0, headers := [("X-Done", ["1"])], body := .plain [1, 2] }
      (by decide) (by decide) (by decide) (Or.inl (by decide))⟩

/-- C8: Every hop in a call's trace was issued with the call's own
method and its identical body value: neither is altered or downgraded
across redirects. -/
theorem redirect_method_body_stable (server : String → Option WireResponse)
    (method url uripath : String) (headers : Option Headers)
    (body : Option BodyStream) (rs : RedirectStatus) (options : Options)
    (hop : Hop)
    (hmem : hop ∈
      (clientDo server method url uripath headers body rs options).trace) :
    hop.method = method ∧ hop.body = body :=
  doAux_trace_method_body server method uripath body options
    rs.FollowRedirects ((rs.MaxRedirects + 1 - rs.Current).toNat) url
    (headers.getD []) hop hmem

/-- Witness for C8: the second hop of a redirected `POST` with body
`[7, 8]` is still a `POST` with body `[7, 8]`. -/
theorem redirect_method_body_stable_witness :
    ((clientDo server1 "POST" "http://h/a" "" none (some (.plain [7, 8]))
        ⟨true, 0, 0⟩ {}).trace.get ⟨1, by decide⟩)
      ∈ (clientDo server1 "POST" "http://h/a" "" none (some (.plain [7, 8]))
        ⟨true, 0, 0⟩ {}).trace ∧
    ((clientDo server1 "POST" "http://h/a" "" none (some (.plain [7, 8]))
        ⟨true, 0, 0⟩ {}).trace.get ⟨1, by decide⟩).method = "POST" ∧
    ((clientDo server1 "POST" "http://h/a" "" none (some (.plain [7, 8]))
        ⟨true, 0, 0⟩ {}).trace.get ⟨1, by decide⟩).body
      = some (.plain [7, 8]) :=
  ⟨List.get_mem _ 1 (by decide),
    (redirect_method_body_stable server1 "POST" "http://h/a" "" none
      (some (.plain [7, 8])) ⟨true, 0, 0⟩ {} _
      (List.get_mem _ 1 (by decide))).1,
    (redirect_method_body_stable server1 "POST" "http://h/a" "" none
      (some (.plain [7, 8])) ⟨true, 0, 0⟩ {} _
      (List.get_mem _ 1 (by decide))).2⟩

/-- C9: The translator decompresses exactly when the joined
`Content-Encoding` value is the exact string `"gzip"`: then a gzip-framed
body yields the original uncompressed bytes; for every other value
(case variants, surrounding whitespace, anything else) the raw body stream
is passed through unchanged. -/
theorem toHTTPResponse_gzip_iff (resp : WireResponse) :
    (∀ d, headerValue (fromHeaders resp.headers) "Content-Encoding" = "gzip" →
      resp.body = .gzipOf d →
      toHTTPResponse resp = .ok
        { protoMajor := resp.versionMajor, protoMinor := resp.versionMinor,
          statusCode := resp.statusCode, contentLength := resp.contentLength,
          headers := fromHeaders resp.headers, body := .plain d }) ∧
    (headerValue (fromHeaders resp.headers) "Content-Encoding" ≠ "gzip" →
      toHTTPResponse resp = .ok
        { protoMajor := resp.versionMajor, protoMinor := resp.versionMinor,
          statusCode := resp.statusCode, contentLength := resp.contentLength,
          headers := fromHeaders resp.headers, body := resp.body }) := by
  constructor
  · intro d hce hb
    unfold toHTTPResponse
    dsimp only
    rw [if_pos hce, hb]
  · intro hce
    unfold toHTTPResponse
    dsimp only
    rw [if_neg hce]

/-- Witness for C9: a `Content-Encoding: gzip` response with compressed
payload `[10, 20]` yields `[10, 20]` uncompressed, while `Content-Encoding:
GZIP` (case variant) passes the gzip-framed stream through untouched. -/
theorem toHTTPResponse_gzip_iff_witness :
    headerValue (fromHeaders [("Content-Encoding", "gzip")])
      "Content-Encoding" = "gzip" ∧
    toHTTPResponse { statusCode := 200, headers := [("Content-Encoding", "gzip")], body := .gzipOf [10, 20] }
      = .ok { protoMajor := 1, protoMinor := 1, statusCode := 200, contentLength := 0, headers := [("Content-Encoding", ["gzip"])], body := .plain [10, 20] } ∧
    headerValue (fromHeaders [("Content-Encoding", "GZIP")])
      "Content-Encoding" ≠ "gzip" ∧
    toHTTPResponse { statusCode := 200, headers := [("Content-Encoding", "GZIP")], body := .gzipOf [10, 20] }
      = .ok { protoMajor := 1, protoMinor := 1, statusCode := 200, contentLength := 0, headers := [("Content-Encoding", ["GZIP"])], body := .gzipOf [10, 20] } :=
  ⟨by decide,
    (toHTTPResponse_gzip_iff _).1 [10, 20] (by decide) rfl,
    by decide,
    (toHTTPResponse_gzip_iff _).2 (by decide)⟩

/-- C10: With `AutomaticHostHeader` on and a caller-supplied (non-nil)
headers map: the `Host` assignment replaces any existing `Host` values with
the single dialed host; the first hop sends exactly the caller's map after
that in-place write; every later hop's map is the previous hop's map (the
same shared map, not a copy) after the write for the new host; and after the
call returns the caller's map still holds a single-valued `Host` entry —
the mutation is visible to the caller. -/
theorem automatic_host_header_mutates_caller_map
    (server : String → Option WireResponse) (method url uripath : String)
    (hs : Headers) (body : Option BodyStream) (rs : RedirectStatus)
    (options : Options) (u : StdURL)
    (hAHH : options.AutomaticHostHeader = true)
    (hu : parseRequestURI url = some u) :
    lookupA (setA hs "Host" [u.host]) "Host" = some [u.host] ∧
    (∀ hop rest,
      (clientDo server method url uripath (some hs) body rs options).trace
        = hop :: rest →
      hop.headersSent = setA hs "Host" [u.host] ∧ hop.host = u.host) ∧
    List.Chain'
      (fun h1 h2 => h2.headersSent = setA h1.headersSent "Host" [h2.host])
      (clientDo server method url uripath (some hs) body rs options).trace ∧
    (∃ v, lookupA
      (clientDo server method url uripath (some hs) body rs
        options).finalHeaders "Host" = some [v]) := by
  refine ⟨lookupA_setA hs "Host" [u.host], ?_, ?_, ?_⟩
  · intro hop rest htr
    obtain ⟨u', resp, r, hu', hresp, hr, hhop⟩ := doAux_trace_head htr
    rw [hu] at hu'
    cases hu'
    subst hhop
    constructor
    · show applyHostHeader options hs u.host = setA hs "Host" [u.host]
      simp [applyHostHeader, hAHH]
    · rfl
  · refine List.Chain'.imp ?_
      (doAux_trace_chain server method uripath body options
        rs.FollowRedirects ((rs.MaxRedirects + 1 - rs.Current).toNat) url hs)
    intro a b hab
    rw [hab.2]
    simp [applyHostHeader, hAHH]
  · exact doAux_final_host server method uripath body options
      rs.FollowRedirects hAHH ((rs.MaxRedirects + 1 - rs.Current).toNat)
      url hs u hu

/-- Witness for C10: a caller map with a two-valued `Host` entry, run
through a one-redirect chain with `AutomaticHostHeader` on. -/
theorem automatic_host_header_mutates_caller_map_witness :
    ({ AutomaticHostHeader := true : Options }.AutomaticHostHeader = true) ∧
    parseRequestURI "http://h/a" = some ⟨"http", "h", "/a", ""⟩ ∧
    (∃ v, lookupA
      (clientDo server1 "GET" "http://h/a" ""
        (some [("Host", ["orig", "dup"]), ("X-A", ["1"])]) none ⟨true, 0, 0⟩
        { AutomaticHostHeader := true }).finalHeaders "Host" = some [v]) :=
  ⟨rfl, by decide,
    (automatic_host_header_mutates_caller_map server1 "GET" "http://h/a" ""
      [("Host", ["orig", "dup"]), ("X-A", ["1"])] none ⟨true, 0, 0⟩
      { AutomaticHostHeader := true } ⟨"http", "h", "/a", ""⟩ rfl
      (by decide)).2.2.2⟩
